import Mathlib

/-!
Shallow embedding of the Auth0 user-import pipeline (src/importer.js).

The importer is a promise-chained pipeline: it acquires a management token
(scheduling a renewal timer), expands glob patterns to files, filters files
by size, validates the target connection, then sequentially submits each
admitted file as an import job and polls the job until it leaves the
`pending` status, accumulating per-file results into a RunStats value.

Remote interactions (glob matches, file sizes, the token response, the
connection listing, and each job's status/error responses) are supplied by
an explicit environment; the embedding records every remote call and timer
delay as an `Event` in a trace, so that claims about "network activity"
become statements about the trace.
-/

/-- AUTH0_JOB_STATUS_PENDING from importer.js. -/
def AUTH0_JOB_STATUS_PENDING : String := "pending"

/-- MAX_FILE_SIZE from importer.js (bytes). -/
def MAX_FILE_SIZE : Nat := 500000

/-- WAIT_INTERVAL from importer.js: 5 * 1000 milliseconds. -/
def WAIT_INTERVAL : Nat := 5 * 1000

/-- RENEW_INTERVAL from importer.js (seconds). -/
def RENEW_INTERVAL : Int := 60

/-- MS_IN_SEC from importer.js. -/
def MS_IN_SEC : Int := 1000

/-- A connection record as returned by the `connections?name=` listing. -/
structure Connection where
  id : String
  name : String
  strategy : String
  enabled_clients : List String
  deriving Repr, DecidableEq

/-- The `{id, name}` pair kept in RunStats after validation. -/
structure ConnectionRef where
  id : String
  name : String
  deriving Repr, DecidableEq

/-- A job status response body `{id, status}` (summary fields are opaque here). -/
structure JobStatus where
  id : String
  status : String
  deriving Repr, DecidableEq

/-- One per-file result `{name, result, errors}` pushed onto RunStats.files. -/
structure FileResult where
  name : String
  result : JobStatus
  errors : List String
  deriving Repr, DecidableEq

/-- The accumulating run statistics built by getConnection and the job pipeline. -/
structure RunStats where
  startTime : Nat
  connection : ConnectionRef
  upsert : Bool
  email : Bool
  files : List FileResult
  deriving Repr, DecidableEq

/-- A remote call or timer delay performed by the pipeline, in order. -/
inductive Event where
  | tokenRequest : Event
  | listConnections : String → Event
  | submitJob : String → Event
  | jobStatus : String → Event
  | jobErrors : String → Event
  | delay : Nat → Event
  deriving Repr, DecidableEq

/-- Environment behaviour of one submitted job: the sequence of status
responses the remote service returns (first one is the submission response
body, the rest answer the re-polls), and the error listing served by
`jobs/\x7bid\x7d/errors`. -/
structure JobBehavior where
  responses : List JobStatus
  errors : List String
  deriving Repr

/-- readFiles from importer.js: glob expansion of one pattern. The glob
callback is the environment function; an error-free callback resolves with
the matched file list (possibly empty). -/
def readFiles (globMatch : String → List String) (filePattern : String) : List String :=
  globMatch filePattern

/-- The pattern-expansion step of import():
`Promise.all(files.map(readFiles)).then(allFiles => allFiles.reduce((f, current) => f.concat(current), []))`. -/
def expandPatterns (globMatch : String → List String) (patterns : List String) : List String :=
  (patterns.map (readFiles globMatch)).foldl (fun f current => f ++ current) []

/-- checkFileSize from importer.js: admit a file iff its byte size does not
exceed MAX_FILE_SIZE. -/
def checkFileSize (fileSize : String → Nat) (fileName : String) : Bool :=
  if fileSize fileName > MAX_FILE_SIZE then false else true

/-- getConnection from importer.js, applied to the listing response: the
three fail-fast validations, then the initial RunStats shell. -/
def getConnection (clientId : String) (name : String) (upsert email : Bool)
    (now : Nat) (connections : List Connection) : Except String RunStats :=
  match connections with
  | [] => Except.error s!"Connection {name} was not found"
  | c :: _ =>
    if c.strategy ≠ "auth0" then
      Except.error s!"Connection {name} is not a database connection"
    else if c.enabled_clients.contains clientId = false then
      Except.error s!"Connection {name} is not enabled for client {clientId}"
    else
      Except.ok
        { startTime := now
          connection := { id := c.id, name := c.name }
          upsert := upsert
          email := email
          files := [] }

/-- waitAndCheck from importer.js, as a function of the current status
response and the list of responses the service will give to subsequent
re-polls. If the status is not `pending` it fetches the error listing,
appends a FileResult and resolves with the updated stats; otherwise it
waits WAIT_INTERVAL, re-fetches the job status and recurses. A `none`
first component means the promise never settles within the provided
responses. -/
def waitAndCheck (name : String) (errors : List String) (stats : RunStats) :
    JobStatus → List JobStatus → Option RunStats × List Event
  | result, rest =>
    if result.status ≠ AUTH0_JOB_STATUS_PENDING then
      (some { stats with files := stats.files ++ [{ name := name, result := result, errors := errors }] },
       [Event.jobErrors result.id])
    else
      match rest with
      | [] => (none, [Event.delay WAIT_INTERVAL, Event.jobStatus result.id])
      | r :: rs =>
        let step := waitAndCheck name errors stats r rs
        (step.1, Event.delay WAIT_INTERVAL :: Event.jobStatus result.id :: step.2)

/-- The polling loop seeded by the submission response: the first response
in the list plays the role of the job descriptor returned by the
submission endpoint. -/
def runPoll (name : String) (errors : List String) (stats : RunStats) :
    List JobStatus → Option RunStats × List Event
  | [] => (none, [])
  | s :: rest => waitAndCheck name errors stats s rest

/-- postUserImport from importer.js: one step of the sequential fold. An
already-rejected or never-settling accumulator skips the submission (its
`.then` never runs); otherwise the file is submitted and its job polled to
completion. -/
def postUserImport (jobs : String → JobBehavior) :
    Option RunStats × List Event → String → Option RunStats × List Event
  | (none, evs), _ => (none, evs)
  | (some stats, evs), file =>
    let jb := jobs file
    let step := runPoll file jb.errors stats jb.responses
    (step.1, evs ++ Event.submitJob file :: step.2)

/-- The `.reduce(postUserImport, getConnection(...))` fold over the admitted files. -/
def postImportFold (jobs : String → JobBehavior)
    (acc : Option RunStats × List Event) (files : List String) :
    Option RunStats × List Event :=
  files.foldl (postUserImport jobs) acc

/-- The renewal delay computed by getManagementToken:
`Math.min((expires_in - RENEW_INTERVAL) * MS_IN_SEC, 2147483647)` milliseconds. -/
def tokenRenewalDelay (expiresIn : Int) : Int :=
  min ((expiresIn - RENEW_INTERVAL) * MS_IN_SEC) 2147483647

/-- Everything the remote world supplies during one run. -/
structure ImportEnv where
  globMatch : String → List String
  fileSize : String → Nat
  expiresIn : Int
  connections : List Connection
  jobs : String → JobBehavior
  startNow : Nat
  endNow : Nat

/-- The options object passed to import(); upsert and email default to false. -/
structure ImportOptions where
  connection : Option String
  upsert : Bool := false
  email : Bool := false

/-- The admitted file list of a run: all patterns expanded, concatenated in
input order, then filtered by checkFileSize. An absent pattern list behaves
as an empty one (`files || []`). -/
def admittedFiles (env : ImportEnv) (files : Option (List String)) : List String :=
  (expandPatterns env.globMatch (files.getD [])).filter (checkFileSize env.fileSize)

/-- How one run of import() ends. -/
inductive RunOutcome where
  | rejected : String → RunOutcome
  | hung : RunOutcome
  | resolved : RunStats → Nat → RunOutcome
  deriving Repr, DecidableEq

/-- The observable result of a run: its outcome, the ordered trace of remote
calls and delays, and the state of the token-renewal timeout when the run
settles (`none` when it was never scheduled or was cleared). -/
structure ImportResult where
  outcome : RunOutcome
  trace : List Event
  tokenTimeout : Option Int
  deriving Repr, DecidableEq

/-- import() from importer.js. A missing or empty connection name rejects
before any remote activity. Otherwise getManagementToken runs (one token
request, scheduling the renewal timeout), patterns are expanded and
filtered, getConnection validates the target (one listing call), and the
sequential fold submits and polls each admitted file.
resetTokenTimeout clears the renewal timeout only on the success path. -/
def importRun (clientId : String) (env : ImportEnv)
    (options : ImportOptions) (files : Option (List String)) : ImportResult :=
  match options.connection with
  | none =>
    { outcome := RunOutcome.rejected "You must specificy a connection name in options.connection"
      trace := []
      tokenTimeout := none }
  | some connection =>
    if connection.length = 0 then
      { outcome := RunOutcome.rejected "You must specificy a connection name in options.connection"
        trace := []
        tokenTimeout := none }
    else
      let timeout := tokenRenewalDelay env.expiresIn
      let admitted := admittedFiles env files
      match getConnection clientId connection options.upsert options.email
          env.startNow env.connections with
      | Except.error msg =>
        { outcome := RunOutcome.rejected msg
          trace := [Event.tokenRequest, Event.listConnections connection]
          tokenTimeout := some timeout }
      | Except.ok stats =>
        match postImportFold env.jobs (some stats, []) admitted with
        | (none, evs) =>
          { outcome := RunOutcome.hung
            trace := Event.tokenRequest :: Event.listConnections connection :: evs
            tokenTimeout := some timeout }
        | (some finalStats, evs) =>
          { outcome := RunOutcome.resolved finalStats env.endNow
            trace := Event.tokenRequest :: Event.listConnections connection :: evs
            tokenTimeout := none }

/-- Split a status-response list at the first response whose status is not
`pending`: returns the pending run and the terminal response, or `none`
when every provided response is pending. -/
def splitPoll : List JobStatus → Option (List JobStatus × JobStatus)
  | [] => none
  | s :: rest =>
    if s.status = AUTH0_JOB_STATUS_PENDING then
      (splitPoll rest).map (fun pt => (s :: pt.1, pt.2))
    else
      some ([], s)

/-- The events a poll emits when it sees the pending responses `ps` and then
the terminal response `t`: one delay and one status re-fetch per pending
response, then one error-listing fetch. -/
def pollEvents (ps : List JobStatus) (t : JobStatus) : List Event :=
  (ps.map (fun s => [Event.delay WAIT_INTERVAL, Event.jobStatus s.id])).flatten
    ++ [Event.jobErrors t.id]

/-- The FileResult a terminating job produces for file `f`. -/
def fileResultOf (jobs : String → JobBehavior) (f : String) : FileResult :=
  match splitPoll (jobs f).responses with
  | some pt => { name := f, result := pt.2, errors := (jobs f).errors }
  | none => { name := f, result := { id := "", status := "" }, errors := [] }

/-- The events one file contributes to the run trace when its job terminates. -/
def fileEvents (jobs : String → JobBehavior) (f : String) : List Event :=
  match splitPoll (jobs f).responses with
  | some pt => Event.submitJob f :: pollEvents pt.1 pt.2
  | none => [Event.submitJob f]

/-- Extract the file name from a submission event. -/
def submitName : Event → Option String
  | Event.submitJob f => some f
  | _ => none

/-- Recognize a delay event. -/
def isDelay : Event → Bool
  | Event.delay _ => true
  | _ => false

/-- Recognize a job-status re-fetch event. -/
def isStatusFetch : Event → Bool
  | Event.jobStatus _ => true
  | _ => false

/-- Recognize an error-listing fetch event. -/
def isErrorsFetch : Event → Bool
  | Event.jobErrors _ => true
  | _ => false

theorem fileResultOf_name (jobs : String → JobBehavior) (f : String) :
    (fileResultOf jobs f).name = f := by
  unfold fileResultOf
  cases splitPoll (jobs f).responses <;> rfl

theorem waitAndCheck_eq_of_splitPoll (name : String) (errors : List String)
    (stats : RunStats) :
    ∀ (rest : List JobStatus) (s : JobStatus) (ps : List JobStatus) (t : JobStatus),
      splitPoll (s :: rest) = some (ps, t) →
      waitAndCheck name errors stats s rest =
        (some { stats with
                  files := stats.files ++ [{ name := name, result := t, errors := errors }] },
         pollEvents ps t) := by
  intro rest
  induction rest with
  | nil =>
    intro s ps t h
    by_cases hs : s.status = AUTH0_JOB_STATUS_PENDING
    · simp [splitPoll, hs] at h
    · simp only [splitPoll, if_neg hs, Option.some.injEq, Prod.mk.injEq] at h
      obtain ⟨hps, ht⟩ := h
      subst hps; subst ht
      simp [waitAndCheck, hs, pollEvents]
  | cons r rs ih =>
    intro s ps t h
    by_cases hs : s.status = AUTH0_JOB_STATUS_PENDING
    · rw [splitPoll, if_pos hs, Option.map_eq_some'] at h
      obtain ⟨⟨ps', t'⟩, hsplit, heq⟩ := h
      simp only [Prod.mk.injEq] at heq
      obtain ⟨hps, ht⟩ := heq
      subst hps; subst ht
      have hrec := ih r ps' t' hsplit
      have hcond : ¬(s.status ≠ AUTH0_JOB_STATUS_PENDING) := by simp [hs]
      simp only [waitAndCheck, if_neg hcond]
      rw [hrec]
      simp [pollEvents]
    · simp only [splitPoll, if_neg hs, Option.some.injEq, Prod.mk.injEq] at h
      obtain ⟨hps, ht⟩ := h
      subst hps; subst ht
      simp [waitAndCheck, hs, pollEvents]

theorem runPoll_eq_of_splitPoll (name : String) (errors : List String)
    (stats : RunStats) (responses : List JobStatus) (ps : List JobStatus)
    (t : JobStatus) (h : splitPoll responses = some (ps, t)) :
    runPoll name errors stats responses =
      (some { stats with
                files := stats.files ++ [{ name := name, result := t, errors := errors }] },
       pollEvents ps t) := by
  cases responses with
  | nil => simp [splitPoll] at h
  | cons s rest => exact waitAndCheck_eq_of_splitPoll name errors stats rest s ps t h

theorem runStats_files_append_nil (s : RunStats) :
    { s with files := s.files ++ [] } = s := by
  cases s; simp

theorem pollEvents_cons (s : JobStatus) (ps : List JobStatus) (t : JobStatus) :
    pollEvents (s :: ps) t =
      Event.delay WAIT_INTERVAL :: Event.jobStatus s.id :: pollEvents ps t := by
  simp [pollEvents]

theorem postImportFold_none (jobs : String → JobBehavior) :
    ∀ (files : List String) (evs : List Event),
      postImportFold jobs (none, evs) files = (none, evs) := by
  intro files
  induction files with
  | nil => intro evs; rfl
  | cons f fs ih => intro evs; simpa [postImportFold, postUserImport] using ih evs

theorem postImportFold_spec (jobs : String → JobBehavior) :
    ∀ (files : List String) (stats : RunStats) (evs : List Event),
      (∀ f ∈ files, (splitPoll (jobs f).responses).isSome = true) →
      postImportFold jobs (some stats, evs) files =
        (some { stats with files := stats.files ++ files.map (fileResultOf jobs) },
         evs ++ (files.map (fileEvents jobs)).flatten) := by
  intro files
  induction files with
  | nil =>
    intro stats evs _
    simp [postImportFold, runStats_files_append_nil]
  | cons f fs ih =>
    intro stats evs h
    have hf : (splitPoll (jobs f).responses).isSome = true := h f (by simp)
    obtain ⟨⟨ps, t⟩, hsplit⟩ := Option.isSome_iff_exists.mp hf
    have hpoll := runPoll_eq_of_splitPoll f (jobs f).errors stats (jobs f).responses ps t hsplit
    have hstep :
        postUserImport jobs (some stats, evs) f =
          (some { stats with
                    files := stats.files ++ [{ name := f, result := t, errors := (jobs f).errors }] },
           evs ++ Event.submitJob f :: pollEvents ps t) := by
      simp [postUserImport, hpoll]
    have hfr : fileResultOf jobs f = { name := f, result := t, errors := (jobs f).errors } := by
      simp [fileResultOf, hsplit]
    have hfe : fileEvents jobs f = Event.submitJob f :: pollEvents ps t := by
      simp [fileEvents, hsplit]
    have hrest : ∀ g ∈ fs, (splitPoll (jobs g).responses).isSome = true := by
      intro g hg; exact h g (by simp [hg])
    calc postImportFold jobs (some stats, evs) (f :: fs)
        = postImportFold jobs (postUserImport jobs (some stats, evs) f) fs := by
          simp [postImportFold]
      _ = (some { stats with files := stats.files ++ (f :: fs).map (fileResultOf jobs) },
           evs ++ ((f :: fs).map (fileEvents jobs)).flatten) := by
          rw [hstep, ih _ _ hrest]
          simp [hfr, hfe, List.append_assoc]

theorem submit_not_mem_pollEvents (f : String) (ps : List JobStatus) (t : JobStatus) :
    Event.submitJob f ∉ pollEvents ps t := by
  intro h
  rcases List.mem_append.mp h with h1 | h2
  · obtain ⟨l, hl, hmem⟩ := List.mem_flatten.mp h1
    obtain ⟨s, _, rfl⟩ := List.mem_map.mp hl
    simp at hmem
  · simp at h2

theorem filterMap_submitName_pollEvents (ps : List JobStatus) (t : JobStatus) :
    (pollEvents ps t).filterMap submitName = [] := by
  induction ps with
  | nil => simp [pollEvents, submitName]
  | cons s ps ih => simp [pollEvents_cons, submitName, ih]

theorem filterMap_submitName_fileEvents (jobs : String → JobBehavior) (f : String) :
    (fileEvents jobs f).filterMap submitName = [f] := by
  unfold fileEvents
  cases hsp : splitPoll (jobs f).responses with
  | none => simp [submitName]
  | some pt => simp [submitName, filterMap_submitName_pollEvents]

theorem filterMap_submitName_flatten (jobs : String → JobBehavior) :
    ∀ (files : List String),
      ((files.map (fileEvents jobs)).flatten).filterMap submitName = files := by
  intro files
  induction files with
  | nil => simp
  | cons f fs ih =>
    simp [List.filterMap_append, filterMap_submitName_fileEvents, ih]

theorem submit_mem_flatten_iff (jobs : String → JobBehavior) (f : String) :
    ∀ (files : List String),
      Event.submitJob f ∈ ((files.map (fileEvents jobs)).flatten) ↔ f ∈ files := by
  intro files
  induction files with
  | nil => simp
  | cons g fs ih =>
    simp only [List.map_cons, List.flatten_cons, List.mem_append, ih, List.mem_cons]
    constructor
    · rintro (hmem | hmem)
      · left
        unfold fileEvents at hmem
        cases hsp : splitPoll (jobs g).responses with
        | none => rw [hsp] at hmem; simp at hmem; exact hmem
        | some pt =>
          rw [hsp] at hmem
          rcases List.mem_cons.mp hmem with heq | hpoll
          · exact (Event.submitJob.injEq f g).mp heq
          · exact absurd hpoll (submit_not_mem_pollEvents f pt.1 pt.2)
      · right; exact hmem
    · rintro (rfl | hmem)
      · left
        unfold fileEvents
        cases hsp : splitPoll (jobs f).responses with
        | none => simp
        | some pt => simp
      · right; exact hmem

theorem countP_isDelay_pollEvents (ps : List JobStatus) (t : JobStatus) :
    (pollEvents ps t).countP isDelay = ps.length := by
  induction ps with
  | nil => simp [pollEvents, isDelay, List.countP_cons]
  | cons s ps ih =>
    simp [pollEvents_cons, List.countP_cons, isDelay, ih]

theorem countP_isStatusFetch_pollEvents (ps : List JobStatus) (t : JobStatus) :
    (pollEvents ps t).countP isStatusFetch = ps.length := by
  induction ps with
  | nil => simp [pollEvents, isStatusFetch, List.countP_cons]
  | cons s ps ih =>
    simp [pollEvents_cons, List.countP_cons, isStatusFetch, ih]

theorem countP_isErrorsFetch_pollEvents (ps : List JobStatus) (t : JobStatus) :
    (pollEvents ps t).countP isErrorsFetch = 1 := by
  induction ps with
  | nil => simp [pollEvents, isErrorsFetch, List.countP_cons]
  | cons s ps ih =>
    simp [pollEvents_cons, List.countP_cons, isErrorsFetch, ih]

theorem delay_mem_pollEvents (ps : List JobStatus) (t : JobStatus) (d : Nat)
    (h : Event.delay d ∈ pollEvents ps t) : d = WAIT_INTERVAL := by
  induction ps with
  | nil => simp [pollEvents] at h
  | cons s ps ih =>
    rw [pollEvents_cons] at h
    rcases List.mem_cons.mp h with heq | h2
    · exact (Event.delay.injEq d WAIT_INTERVAL).mp heq
    · rcases List.mem_cons.mp h2 with heq | h3
      · simp at heq
      · exact ih h3

theorem getConnection_ok_shape (clientId name : String) (upsert email : Bool)
    (now : Nat) (connections : List Connection) (stats : RunStats)
    (h : getConnection clientId name upsert email now connections = Except.ok stats) :
    ∃ c rest, connections = c :: rest ∧
      stats = { startTime := now
                connection := { id := c.id, name := c.name }
                upsert := upsert
                email := email
                files := [] } := by
  cases connections with
  | nil => simp [getConnection] at h
  | cons c rest =>
    refine ⟨c, rest, rfl, ?_⟩
    simp only [getConnection] at h
    by_cases hs : c.strategy ≠ "auth0"
    · rw [if_pos hs] at h
      exact absurd h (by simp)
    · rw [if_neg hs] at h
      by_cases he : c.enabled_clients.contains clientId = false
      · rw [if_pos he] at h
        exact absurd h (by simp)
      · rw [if_neg he] at h
        exact ((Except.ok.injEq _ _).mp h).symm

theorem importRun_ok (clientId : String) (env : ImportEnv)
    (options : ImportOptions) (files : Option (List String)) (c : String)
    (stats0 : RunStats)
    (hc : options.connection = some c) (hne : ¬c.length = 0)
    (hconn : getConnection clientId c options.upsert options.email
      env.startNow env.connections = Except.ok stats0)
    (hterm : ∀ f ∈ admittedFiles env files,
      (splitPoll (env.jobs f).responses).isSome = true) :
    importRun clientId env options files =
      { outcome := RunOutcome.resolved
          { stats0 with
              files := stats0.files ++ (admittedFiles env files).map (fileResultOf env.jobs) }
          env.endNow
        trace := Event.tokenRequest :: Event.listConnections c ::
          ((admittedFiles env files).map (fileEvents env.jobs)).flatten
        tokenTimeout := none } := by
  simp only [importRun, hc, if_neg hne, hconn]
  rw [postImportFold_spec env.jobs (admittedFiles env files) stats0 [] hterm]
  simp

theorem importRun_error (clientId : String) (env : ImportEnv)
    (options : ImportOptions) (files : Option (List String)) (c msg : String)
    (hc : options.connection = some c) (hne : ¬c.length = 0)
    (hconn : getConnection clientId c options.upsert options.email
      env.startNow env.connections = Except.error msg) :
    importRun clientId env options files =
      { outcome := RunOutcome.rejected msg
        trace := [Event.tokenRequest, Event.listConnections c]
        tokenTimeout := some (tokenRenewalDelay env.expiresIn) } := by
  simp only [importRun, hc, if_neg hne, hconn]

theorem splitPoll_statuses :
    ∀ (responses ps : List JobStatus) (t : JobStatus),
      splitPoll responses = some (ps, t) →
      (∀ s ∈ ps, s.status = AUTH0_JOB_STATUS_PENDING) ∧
        t.status ≠ AUTH0_JOB_STATUS_PENDING := by
  intro responses
  induction responses with
  | nil => intro ps t h; simp [splitPoll] at h
  | cons s rest ih =>
    intro ps t h
    by_cases hs : s.status = AUTH0_JOB_STATUS_PENDING
    · rw [splitPoll, if_pos hs, Option.map_eq_some'] at h
      obtain ⟨⟨ps', t'⟩, hsplit, heq⟩ := h
      simp only [Prod.mk.injEq] at heq
      obtain ⟨hps, ht⟩ := heq
      subst hps; subst ht
      obtain ⟨hall, hterm⟩ := ih ps' t' hsplit
      refine ⟨?_, hterm⟩
      intro x hx
      rcases List.mem_cons.mp hx with rfl | hx
      · exact hs
      · exact hall x hx
    · rw [splitPoll, if_neg hs] at h
      simp only [Option.some.injEq, Prod.mk.injEq] at h
      obtain ⟨hps, ht⟩ := h
      subst hps; subst ht
      exact ⟨by simp, hs⟩

/-- A valid database connection used by concrete runs. -/
def testConnection : Connection :=
  { id := "con_1", name := "DB", strategy := "auth0", enabled_clients := ["client1"] }

/-- The RunStats shell getConnection produces for testConnection at time 0. -/
def testStats : RunStats :=
  { startTime := 0
    connection := { id := "con_1", name := "DB" }
    upsert := false
    email := false
    files := [] }

/-- A job behaviour that completes on the first status response with no errors. -/
def immediateJob : JobBehavior :=
  { responses := [{ id := "job_1", status := "completed" }], errors := [] }

/-- A base environment for concrete runs: no glob matches, tiny files, one
valid connection, fast jobs. -/
def baseEnv : ImportEnv :=
  { globMatch := fun _ => []
    fileSize := fun _ => 100
    expiresIn := 120
    connections := [testConnection]
    jobs := fun _ => immediateJob
    startNow := 0
    endNow := 9 }

/-- C6: connection resolution rejects exactly under three conditions checked
in order — empty listing gives the not-found error, a non-`auth0` strategy on
the first connection gives the not-a-database-connection error, a missing
client id in enabled_clients gives the not-enabled error — and otherwise
returns the initial RunStats shell with startTime, the first connection's id
and name, the upsert/email flags and an empty files list. -/
theorem getConnection_validation_spec (clientId name : String) (upsert email : Bool)
    (now : Nat) (connections : List Connection) :
    (connections = [] →
      getConnection clientId name upsert email now connections =
        Except.error s!"Connection {name} was not found") ∧
    (∀ c rest, connections = c :: rest →
      (c.strategy ≠ "auth0" →
        getConnection clientId name upsert email now connections =
          Except.error s!"Connection {name} is not a database connection") ∧
      (c.strategy = "auth0" → c.enabled_clients.contains clientId = false →
        getConnection clientId name upsert email now connections =
          Except.error s!"Connection {name} is not enabled for client {clientId}") ∧
      (c.strategy = "auth0" → c.enabled_clients.contains clientId = true →
        getConnection clientId name upsert email now connections =
          Except.ok { startTime := now
                      connection := { id := c.id, name := c.name }
                      upsert := upsert
                      email := email
                      files := [] })) := by
  constructor
  · intro h
    subst h
    rfl
  · intro c rest h
    subst h
    refine ⟨?_, ?_, ?_⟩
    · intro hs
      simp [getConnection, hs]
    · intro hs he
      simp [getConnection, hs]
      simpa using he
    · intro hs he
      simp [getConnection, hs]
      simpa using he

/-- C6 witness: the not-found error on an empty listing, and the success
shape on a valid connection. -/
theorem getConnection_validation_spec_witness :
    getConnection "client1" "DB" true false 5 [] =
      Except.error "Connection DB was not found" ∧
    getConnection "client1" "DB" true false 5 [testConnection] =
      Except.ok { startTime := 5
                  connection := { id := "con_1", name := "DB" }
                  upsert := true
                  email := false
                  files := [] } := by
  refine ⟨(getConnection_validation_spec "client1" "DB" true false 5 []).1 rfl, ?_⟩
  exact ((getConnection_validation_spec "client1" "DB" true false 5
    [testConnection]).2 testConnection [] rfl).2.2 (by rfl) (by rfl)

/-- C10: connection resolution inspects only the first element of the
listing — the outcome is unchanged by any tail, and a successful result
carries the first connection's id and name. -/
theorem getConnection_head_only (clientId name : String) (u e : Bool) (now : Nat)
    (c : Connection) (rest rest2 : List Connection) :
    getConnection clientId name u e now (c :: rest) =
      getConnection clientId name u e now (c :: rest2) ∧
    (∀ stats, getConnection clientId name u e now (c :: rest) = Except.ok stats →
      stats.connection = { id := c.id, name := c.name }) := by
  constructor
  · rfl
  · intro stats h
    obtain ⟨c', rest', heq, hstats⟩ :=
      getConnection_ok_shape clientId name u e now (c :: rest) stats h
    injection heq with h1 h2
    subst h1
    rw [hstats]

/-- C10 witness: a first connection with the wrong strategy is rejected even
when a later listed connection would satisfy every check, and a valid first
connection's id and name are the ones returned. -/
theorem getConnection_head_only_witness :
    getConnection "client1" "DB" false false 0
        [{ id := "con_bad", name := "DB", strategy := "samlp", enabled_clients := ["client1"] },
         testConnection] =
      getConnection "client1" "DB" false false 0
        [{ id := "con_bad", name := "DB", strategy := "samlp", enabled_clients := ["client1"] }] ∧
    testStats.connection = { id := "con_1", name := "DB" } := by
  constructor
  · exact (getConnection_head_only "client1" "DB" false false 0
      { id := "con_bad", name := "DB", strategy := "samlp", enabled_clients := ["client1"] }
      [testConnection] []).1
  · exact (getConnection_head_only "client1" "DB" false false 0
      testConnection [] []).2 testStats (by rfl)

/-- C9: the renewal delay is min((expires_in - 60) seconds, 2147483647 ms):
it equals 60 seconds for expires_in = 120, never exceeds the platform timer
cap, equals the cap whenever the uncapped delay reaches it, and equals the
uncapped (expires_in - 60) seconds otherwise. -/
theorem tokenRenewalDelay_spec (e : Int) :
    tokenRenewalDelay 120 = 60 * MS_IN_SEC ∧
    tokenRenewalDelay e ≤ 2147483647 ∧
    ((e - RENEW_INTERVAL) * MS_IN_SEC ≥ 2147483647 → tokenRenewalDelay e = 2147483647) ∧
    ((e - RENEW_INTERVAL) * MS_IN_SEC ≤ 2147483647 →
      tokenRenewalDelay e = (e - RENEW_INTERVAL) * MS_IN_SEC) := by
  refine ⟨by decide, min_le_right _ _, ?_, ?_⟩
  · intro h
    exact min_eq_right h
  · intro h
    exact min_eq_left h

/-- C9 witness: 60 seconds for expires_in = 120, and the cap for a very
long-lived token. -/
theorem tokenRenewalDelay_spec_witness :
    tokenRenewalDelay 120 = 60 * MS_IN_SEC ∧
    tokenRenewalDelay 10000000 = 2147483647 := by
  refine ⟨(tokenRenewalDelay_spec 0).1, ?_⟩
  exact (tokenRenewalDelay_spec 10000000).2.2.1 (by decide)

/-- C2: polling a status-response sequence that shows `ps` pending responses
and then a terminal response `t` appends exactly one FileResult (with the
terminal payload and the fetched errors) to the stats and emits, in order,
one 5-second delay and one status re-fetch per pending response followed by
exactly one error-listing fetch; every pre-terminal response is pending,
the terminal one is not, and every delay is exactly WAIT_INTERVAL. -/
theorem waitAndCheck_polling_spec (name : String) (errors : List String)
    (stats : RunStats) (responses ps : List JobStatus) (t : JobStatus)
    (h : splitPoll responses = some (ps, t)) :
    runPoll name errors stats responses =
      (some { stats with
                files := stats.files ++ [{ name := name, result := t, errors := errors }] },
       pollEvents ps t) ∧
    (pollEvents ps t).countP isDelay = ps.length ∧
    (pollEvents ps t).countP isStatusFetch = ps.length ∧
    (pollEvents ps t).countP isErrorsFetch = 1 ∧
    (∀ s ∈ ps, s.status = AUTH0_JOB_STATUS_PENDING) ∧
    t.status ≠ AUTH0_JOB_STATUS_PENDING ∧
    (∀ d, Event.delay d ∈ pollEvents ps t → d = WAIT_INTERVAL) := by
  obtain ⟨hall, hterm⟩ := splitPoll_statuses responses ps t h
  exact ⟨runPoll_eq_of_splitPoll name errors stats responses ps t h,
    countP_isDelay_pollEvents ps t,
    countP_isStatusFetch_pollEvents ps t,
    countP_isErrorsFetch_pollEvents ps t,
    hall, hterm,
    fun d hd => delay_mem_pollEvents ps t d hd⟩

/-- C2 witness: for the response sequence pending, pending, completed the
poll issues exactly two 5-second delays and two status re-fetches, fetches
the error listing once, and appends the single FileResult. -/
theorem waitAndCheck_polling_spec_witness :
    runPoll "a.json" [] testStats
        [{ id := "j", status := "pending" }, { id := "j", status := "pending" },
         { id := "j", status := "completed" }] =
      (some { testStats with
                files := [{ name := "a.json"
                            result := { id := "j", status := "completed" }
                            errors := [] }] },
       [Event.delay WAIT_INTERVAL, Event.jobStatus "j",
        Event.delay WAIT_INTERVAL, Event.jobStatus "j",
        Event.jobErrors "j"]) ∧
    (pollEvents [{ id := "j", status := "pending" }, { id := "j", status := "pending" }]
        { id := "j", status := "completed" }).countP isDelay = 2 ∧
    (pollEvents [{ id := "j", status := "pending" }, { id := "j", status := "pending" }]
        { id := "j", status := "completed" }).countP isStatusFetch = 2 ∧
    (pollEvents [{ id := "j", status := "pending" }, { id := "j", status := "pending" }]
        { id := "j", status := "completed" }).countP isErrorsFetch = 1 := by
  have h := waitAndCheck_polling_spec "a.json" [] testStats
    [{ id := "j", status := "pending" }, { id := "j", status := "pending" },
     { id := "j", status := "completed" }]
    [{ id := "j", status := "pending" }, { id := "j", status := "pending" }]
    { id := "j", status := "completed" } (by rfl)
  exact ⟨h.1.trans (by decide), h.2.1, h.2.2.1, h.2.2.2.1⟩

theorem fileResultOf_errors (jobs : String → JobBehavior) (f : String)
    (h : (splitPoll (jobs f).responses).isSome = true) :
    (fileResultOf jobs f).errors = (jobs f).errors := by
  obtain ⟨pt, hpt⟩ := Option.isSome_iff_exists.mp h
  simp [fileResultOf, hpt]

/-- An environment whose single pattern matches two small files; a.json's
job completes with no errors, b.json's completes with two error records. -/
def envTwo : ImportEnv :=
  { baseEnv with
      globMatch := fun _ => ["a.json", "b.json"]
      jobs := fun f =>
        if f = "b.json" then
          { responses := [{ id := "job_b", status := "completed" }]
            errors := ["e1", "e2"] }
        else immediateJob }

/-- C3: on a resolving run, RunStats.files holds exactly one entry per
admitted file, in admission order; the entry names equal the admitted list,
which also equals the ordered list of submitted files taken from the trace,
so no entry exists for an unsubmitted file; and no intermediate fold state
ever holds more entries than there are admitted files. -/
theorem runStats_files_one_per_admitted (clientId : String) (env : ImportEnv)
    (options : ImportOptions) (files : Option (List String)) (c : String)
    (stats0 : RunStats)
    (hc : options.connection = some c) (hne : ¬c.length = 0)
    (hconn : getConnection clientId c options.upsert options.email
      env.startNow env.connections = Except.ok stats0)
    (hterm : ∀ f ∈ admittedFiles env files,
      (splitPoll (env.jobs f).responses).isSome = true) :
    (importRun clientId env options files).outcome =
      RunOutcome.resolved
        { stats0 with files := (admittedFiles env files).map (fileResultOf env.jobs) }
        env.endNow ∧
    ((admittedFiles env files).map (fileResultOf env.jobs)).map
        (fun fr => fr.name) = admittedFiles env files ∧
    ((admittedFiles env files).map (fileResultOf env.jobs)).length =
      (admittedFiles env files).length ∧
    (importRun clientId env options files).trace.filterMap submitName =
      admittedFiles env files ∧
    (∀ k st2 evs2,
      postImportFold env.jobs (some stats0, []) ((admittedFiles env files).take k) =
        (some st2, evs2) →
      st2.files.length ≤ (admittedFiles env files).length) := by
  obtain ⟨chead, crest, hconns, hstats0⟩ :=
    getConnection_ok_shape clientId c options.upsert options.email
      env.startNow env.connections stats0 hconn
  have hfiles0 : stats0.files = [] := by rw [hstats0]
  have hrun := importRun_ok clientId env options files c stats0 hc hne hconn hterm
  refine ⟨?_, ?_, ?_, ?_, ?_⟩
  · rw [hrun]
    simp [hfiles0]
  · rw [List.map_map]
    have hpt : ∀ f ∈ admittedFiles env files,
        ((fun fr => fr.name) ∘ fileResultOf env.jobs) f = (fun x => x) f :=
      fun f _ => fileResultOf_name env.jobs f
    rw [List.map_congr_left hpt]
    simp
  · simp
  · rw [hrun]
    have h1 : (Event.tokenRequest :: Event.listConnections c ::
        ((admittedFiles env files).map (fileEvents env.jobs)).flatten).filterMap submitName =
        (((admittedFiles env files).map (fileEvents env.jobs)).flatten).filterMap
          submitName := by
      simp only [List.filterMap_cons, submitName]
    rw [h1, filterMap_submitName_flatten]
  · intro k st2 evs2 hfold
    have hsub : ∀ f ∈ (admittedFiles env files).take k,
        (splitPoll (env.jobs f).responses).isSome = true :=
      fun f hf => hterm f (List.take_subset k _ hf)
    rw [postImportFold_spec env.jobs _ stats0 [] hsub] at hfold
    have h1 := congrArg Prod.fst hfold
    have h2 := Option.some.inj h1
    rw [← h2]
    simp only [List.length_append, List.length_map, List.length_take, hfiles0,
      List.length_nil, Nat.zero_add]
    exact min_le_right _ _

/-- C3 witness: a run over two admitted files resolves with one FileResult
per file, and the trace's submitted files equal the admitted list. -/
theorem runStats_files_one_per_admitted_witness :
    (importRun "client1" envTwo { connection := some "DB" } (some ["pat"])).outcome =
      RunOutcome.resolved
        { testStats with
            files := (admittedFiles envTwo (some ["pat"])).map (fileResultOf envTwo.jobs) }
        9 ∧
    (importRun "client1" envTwo { connection := some "DB" } (some ["pat"])).trace.filterMap
        submitName = admittedFiles envTwo (some ["pat"]) := by
  have h := runStats_files_one_per_admitted "client1" envTwo
    { connection := some "DB" } (some ["pat"]) "DB" testStats rfl (by decide)
    (by rfl) (by decide)
  exact ⟨h.1, h.2.2.2.1⟩

/-- C7: per-record import errors are non-fatal data — whenever every
admitted file's job reaches a terminal status, the run resolves regardless
of the contents of the error listings, and each FileResult carries exactly
the error listing its job returned. -/
theorem import_resolves_despite_errors (clientId : String) (env : ImportEnv)
    (options : ImportOptions) (files : Option (List String)) (c : String)
    (stats0 : RunStats)
    (hc : options.connection = some c) (hne : ¬c.length = 0)
    (hconn : getConnection clientId c options.upsert options.email
      env.startNow env.connections = Except.ok stats0)
    (hterm : ∀ f ∈ admittedFiles env files,
      (splitPoll (env.jobs f).responses).isSome = true) :
    (importRun clientId env options files).outcome =
      RunOutcome.resolved
        { stats0 with files := (admittedFiles env files).map (fileResultOf env.jobs) }
        env.endNow ∧
    ((admittedFiles env files).map (fileResultOf env.jobs)).map (fun fr => fr.errors) =
      (admittedFiles env files).map (fun f => (env.jobs f).errors) := by
  obtain ⟨chead, crest, hconns, hstats0⟩ :=
    getConnection_ok_shape clientId c options.upsert options.email
      env.startNow env.connections stats0 hconn
  have hfiles0 : stats0.files = [] := by rw [hstats0]
  have hrun := importRun_ok clientId env options files c stats0 hc hne hconn hterm
  constructor
  · rw [hrun]
    simp [hfiles0]
  · rw [List.map_map]
    exact List.map_congr_left (fun f hf => fileResultOf_errors env.jobs f (hterm f hf))

/-- C7 witness: two files whose jobs complete with zero and two error
records give a resolved run with files[0].errors.length = 0 and
files[1].errors.length = 2. -/
theorem import_resolves_despite_errors_witness :
    (importRun "client1" envTwo { connection := some "DB" } (some ["pat"])).outcome =
      RunOutcome.resolved
        { testStats with
            files := [{ name := "a.json"
                        result := { id := "job_1", status := "completed" }
                        errors := [] },
                      { name := "b.json"
                        result := { id := "job_b", status := "completed" }
                        errors := ["e1", "e2"] }] }
        9 ∧
    ([([] : List String), ["e1", "e2"]].map (fun l => l.length)) = [0, 2] := by
  have h := import_resolves_despite_errors "client1" envTwo
    { connection := some "DB" } (some ["pat"]) "DB" testStats rfl (by decide)
    (by rfl) (by decide)
  exact ⟨h.1.trans (by decide), by decide⟩

/-- An environment whose connection listing is empty: validation fails. -/
def noConnEnv : ImportEnv := { baseEnv with connections := [] }

/-- An environment where every pattern matches the same single file. -/
def dupEnv : ImportEnv := { baseEnv with globMatch := fun _ => ["dup.json"] }

/-- A glob function with one zero-match pattern. -/
def zeroMatchGlob : String → List String :=
  fun p => if p = "z" then [] else ["a.json", "b.json"]

/-- An environment with one oversized and one small file. -/
def sizedEnv : ImportEnv :=
  { baseEnv with
      globMatch := fun _ => ["big.json", "small.json"]
      fileSize := fun f => if f = "big.json" then 600000 else 100 }

/-- C1 counterexample: with a valid non-empty connection name and an empty
pattern list, the run still performs network activity — it requests a token
and lists connections. -/
theorem import_empty_patterns_counterexample :
    Event.tokenRequest ∈
      (importRun "client1" baseEnv { connection := some "DB" } (some [])).trace ∧
    Event.listConnections "DB" ∈
      (importRun "client1" baseEnv { connection := some "DB" } (some [])).trace ∧
    ¬(importRun "client1" baseEnv { connection := some "DB" } (some [])).trace = [] := by
  decide

/-- C1 amended: with an empty or absent pattern list the run submits no job
and, when it resolves, resolves with an empty files sequence — but it still
performs exactly one token acquisition and one connection-listing call. -/
theorem import_empty_patterns_spec (clientId : String) (env : ImportEnv)
    (options : ImportOptions) (files : Option (List String)) (c : String)
    (hc : options.connection = some c) (hne : ¬c.length = 0)
    (hfiles : files = none ∨ files = some []) :
    (importRun clientId env options files).trace =
      [Event.tokenRequest, Event.listConnections c] ∧
    (∀ f, Event.submitJob f ∉ (importRun clientId env options files).trace) ∧
    (∀ st et, (importRun clientId env options files).outcome =
        RunOutcome.resolved st et → st.files = []) := by
  have hadm : admittedFiles env files = [] := by
    rcases hfiles with rfl | rfl <;> rfl
  cases hgc : getConnection clientId c options.upsert options.email
      env.startNow env.connections with
  | error msg =>
    have hrun := importRun_error clientId env options files c msg hc hne hgc
    rw [hrun]
    refine ⟨rfl, ?_, ?_⟩
    · intro f hf
      simp at hf
    · intro st et h
      simp at h
  | ok stats0 =>
    obtain ⟨chead, crest, hconns, hstats0⟩ :=
      getConnection_ok_shape clientId c options.upsert options.email
        env.startNow env.connections stats0 hgc
    have hfiles0 : stats0.files = [] := by rw [hstats0]
    have hterm : ∀ f ∈ admittedFiles env files,
        (splitPoll (env.jobs f).responses).isSome = true := by
      rw [hadm]
      intro f hf
      simp at hf
    have hrun := importRun_ok clientId env options files c stats0 hc hne hgc hterm
    rw [hadm] at hrun
    simp only [List.map_nil, List.flatten_nil, List.append_nil] at hrun
    rw [hrun]
    refine ⟨rfl, ?_, ?_⟩
    · intro f hf
      simp at hf
    · intro st et h
      simp only [RunOutcome.resolved.injEq] at h
      rw [← h.1, hfiles0]

/-- C1 witness for the amended statement: an absent pattern list yields
exactly the token request and the listing call. -/
theorem import_empty_patterns_spec_witness :
    (importRun "client1" baseEnv { connection := some "DB" } none).trace =
      [Event.tokenRequest, Event.listConnections "DB"] :=
  (import_empty_patterns_spec "client1" baseEnv { connection := some "DB" }
    none "DB" rfl (by decide) (Or.inl rfl)).1

/-- C4 counterexample: a run that ends with a fatal connection-validation
error does not cancel the renewal timer — the timeout stays scheduled. -/
theorem timer_not_cancelled_counterexample :
    (importRun "client1" noConnEnv { connection := some "DB" } (some [])).outcome =
      RunOutcome.rejected "Connection DB was not found" ∧
    (importRun "client1" noConnEnv { connection := some "DB" } (some [])).tokenTimeout =
      some 60000 ∧
    ¬(importRun "client1" noConnEnv { connection := some "DB" } (some [])).tokenTimeout =
      none := by
  decide

/-- C4 amended: on every run whose fold completes successfully (the promise
resolves) the renewal timeout is cleared; a run that ends with a fatal error
leaves it scheduled. -/
theorem timer_cancelled_on_resolved (clientId : String) (env : ImportEnv)
    (options : ImportOptions) (files : Option (List String)) (st : RunStats) (et : Nat)
    (h : (importRun clientId env options files).outcome = RunOutcome.resolved st et) :
    (importRun clientId env options files).tokenTimeout = none := by
  cases hopt : options.connection with
  | none =>
    simp only [importRun, hopt] at h
    simp at h
  | some c =>
    by_cases hne : c.length = 0
    · simp only [importRun, hopt, if_pos hne] at h
      simp at h
    · cases hgc : getConnection clientId c options.upsert options.email
          env.startNow env.connections with
      | error msg =>
        simp only [importRun, hopt, if_neg hne, hgc] at h
        simp at h
      | ok stats0 =>
        cases hfold : postImportFold env.jobs (some stats0, []) (admittedFiles env files) with
        | mk o evs =>
          cases o with
          | none =>
            simp only [importRun, hopt, if_neg hne, hgc, hfold] at h
            simp at h
          | some finalStats =>
            simp only [importRun, hopt, if_neg hne, hgc, hfold]

/-- C4 witness for the amended statement: a resolving run ends with no
scheduled renewal timeout. -/
theorem timer_cancelled_on_resolved_witness :
    (importRun "client1" baseEnv { connection := some "DB" } (some [])).tokenTimeout =
      none :=
  timer_cancelled_on_resolved "client1" baseEnv { connection := some "DB" }
    (some []) testStats 9 (by decide)

/-- C5 counterexample: a path matched by two patterns appears twice in the
expanded list and is submitted twice — the expansion does not deduplicate. -/
theorem expandPatterns_duplicates_counterexample :
    expandPatterns (fun _ => ["dup.json"]) ["p1", "p2"] = ["dup.json", "dup.json"] ∧
    (expandPatterns (fun _ => ["dup.json"]) ["p1", "p2"]).count "dup.json" = 2 ∧
    ((importRun "client1" dupEnv { connection := some "DB" } (some ["p1", "p2"])).trace.count
      (Event.submitJob "dup.json")) = 2 := by
  decide

theorem foldl_append_eq_flatten {α : Type} :
    ∀ (ls : List (List α)) (init : List α),
      ls.foldl (fun f current => f ++ current) init = init ++ ls.flatten := by
  intro ls
  induction ls with
  | nil => intro init; simp
  | cons l ls ih => intro init; simp [ih]

/-- C5 amended: pattern expansion is the order-preserving concatenation of
each pattern's match list (a zero-match pattern contributing nothing);
duplicate matches across patterns are retained, not deduplicated. -/
theorem expandPatterns_spec (globMatch : String → List String) (patterns : List String) :
    expandPatterns globMatch patterns = (patterns.map globMatch).flatten ∧
    (∀ p rest, globMatch p = [] →
      expandPatterns globMatch (p :: rest) = expandPatterns globMatch rest) := by
  have hflat : ∀ qs : List String,
      expandPatterns globMatch qs = (qs.map globMatch).flatten := by
    intro qs
    unfold expandPatterns readFiles
    rw [foldl_append_eq_flatten]
    simp
  refine ⟨hflat patterns, ?_⟩
  intro p rest hp
  rw [hflat (p :: rest), hflat rest]
  simp [hp]

/-- C5 witness for the amended statement: a zero-match pattern contributes
an empty sequence, leaving the expansion of the remaining patterns. -/
theorem expandPatterns_spec_witness :
    expandPatterns zeroMatchGlob ["z", "w"] = expandPatterns zeroMatchGlob ["w"] :=
  (expandPatterns_spec zeroMatchGlob ["z", "w"]).2 "z" ["w"] (by rfl)

/-- C8: the admission filter admits exactly the files of size at most
MAX_FILE_SIZE; on a resolving run an oversized file is never submitted and
never appears in RunStats.files, while an expanded file within the limit is
submitted. -/
theorem size_filter_spec (clientId : String) (env : ImportEnv)
    (options : ImportOptions) (files : Option (List String)) (c : String)
    (stats0 : RunStats) (f : String)
    (hc : options.connection = some c) (hne : ¬c.length = 0)
    (hconn : getConnection clientId c options.upsert options.email
      env.startNow env.connections = Except.ok stats0)
    (hterm : ∀ g ∈ admittedFiles env files,
      (splitPoll (env.jobs g).responses).isSome = true) :
    (checkFileSize env.fileSize f = true ↔ env.fileSize f ≤ MAX_FILE_SIZE) ∧
    (env.fileSize f > MAX_FILE_SIZE →
      Event.submitJob f ∉ (importRun clientId env options files).trace ∧
      (∀ st et, (importRun clientId env options files).outcome =
          RunOutcome.resolved st et → ∀ fr ∈ st.files, fr.name ≠ f)) ∧
    (f ∈ expandPatterns env.globMatch (files.getD []) →
      env.fileSize f ≤ MAX_FILE_SIZE →
      Event.submitJob f ∈ (importRun clientId env options files).trace) := by
  obtain ⟨chead, crest, hconns, hstats0⟩ :=
    getConnection_ok_shape clientId c options.upsert options.email
      env.startNow env.connections stats0 hconn
  have hfiles0 : stats0.files = [] := by rw [hstats0]
  have hrun := importRun_ok clientId env options files c stats0 hc hne hconn hterm
  have hiff : checkFileSize env.fileSize f = true ↔ env.fileSize f ≤ MAX_FILE_SIZE := by
    unfold checkFileSize
    by_cases hgt : env.fileSize f > MAX_FILE_SIZE
    · simp only [if_pos hgt]
      constructor
      · intro h
        exact absurd h (by simp)
      · intro h
        omega
    · simp only [if_neg hgt]
      constructor
      · intro _
        omega
      · intro _
        trivial
  have hmem : Event.submitJob f ∈ (importRun clientId env options files).trace ↔
      f ∈ admittedFiles env files := by
    rw [hrun]
    have hj := submit_mem_flatten_iff env.jobs f (admittedFiles env files)
    simp [hj]
  have hfilter : f ∈ admittedFiles env files ↔
      f ∈ expandPatterns env.globMatch (files.getD []) ∧
        checkFileSize env.fileSize f = true := by
    unfold admittedFiles
    exact List.mem_filter
  refine ⟨hiff, ?_, ?_⟩
  · intro hgt
    have hcf : checkFileSize env.fileSize f = false := by
      unfold checkFileSize
      simp [hgt]
    have hnadm : f ∉ admittedFiles env files := by
      intro hf
      have hx := (hfilter.mp hf).2
      rw [hcf] at hx
      exact Bool.false_ne_true hx
    constructor
    · intro hf
      exact hnadm (hmem.mp hf)
    · intro st et h
      rw [hrun] at h
      simp only [RunOutcome.resolved.injEq] at h
      intro fr hfr
      rw [← h.1] at hfr
      simp only [hfiles0, List.nil_append] at hfr
      obtain ⟨g, hg, hgfr⟩ := List.mem_map.mp hfr
      intro hname
      rw [← hgfr, fileResultOf_name] at hname
      rw [hname] at hg
      exact hnadm hg
  · intro hexp hle
    exact hmem.mpr (hfilter.mpr ⟨hexp, hiff.mpr hle⟩)

/-- C8 witness: a 600000-byte file is never submitted while the 100-byte
file expanded by the same pattern is submitted. -/
theorem size_filter_spec_witness :
    Event.submitJob "big.json" ∉
      (importRun "client1" sizedEnv { connection := some "DB" } (some ["pat"])).trace ∧
    Event.submitJob "small.json" ∈
      (importRun "client1" sizedEnv { connection := some "DB" } (some ["pat"])).trace := by
  have hbig := size_filter_spec "client1" sizedEnv { connection := some "DB" }
    (some ["pat"]) "DB" testStats "big.json" rfl (by decide) (by rfl) (by decide)
  have hsmall := size_filter_spec "client1" sizedEnv { connection := some "DB" }
    (some ["pat"]) "DB" testStats "small.json" rfl (by decide) (by rfl) (by decide)
  exact ⟨(hbig.2.1 (by decide)).1, hsmall.2.2 (by decide) (by decide)⟩
